import Mathlib

/-!
# Verification of onepdfshrink

A shallow embedding of `src/onepdfshrink.py` (a PDF compression and
splitting utility) together with proofs about its core algorithms:

* the image filter-chain decoder `decode_pdf_image`,
* the image recompressor `compress_image`,
* the page image rewriter / document compressor
  `extract_and_compress_images` and `compress_pdf`,
* the size-bounded splitter `split_pdf_by_size`.

External collaborators (the PyPDF2 container reader/writer, the PIL image
codec, `zlib`) are modelled as oracle parameters: `inflate` for
`zlib.decompress` (`none` = the call raises), `encode` for the whole PIL
open/convert/resize/encode pipeline (`none` = some step raises), and
`size` for the serialized byte size PyPDF2 produces for a given ordered
list of pages (deterministic per page list, as the same writer code is
invoked each time). Python exceptions are modelled as `Option`/`Except`
values; byte strings are `List Nat`.
-/

namespace OnePdfShrink

/-- Byte strings (only contents and length matter to the program logic). -/
abbrev Bytes := List Nat

/-- The PDF stream filters that `decode_pdf_image` distinguishes
(source lines 69-86).  `other` stands for any filter name that matches
none of the five recognized substrings: the loop ignores it and moves on. -/
inductive Filter where
  | flateDecode
  | dctDecode
  | ccittFaxDecode
  | jbig2Decode
  | jpxDecode
  | other
deriving DecidableEq, Repr

/-- The `for filter_type in filters` loop of `decode_pdf_image`
(source lines 69-88).  `inflate` is the `zlib.decompress` oracle; a
`none` from it models the zlib exception, which the surrounding
`try/except` turns into a `None` return (line 90-91). -/
def decodeLoop (inflate : Bytes → Option Bytes) : List Filter → Bytes → Option Bytes
  | [], data => some data
  | f :: fs, data =>
    match f with
    | .flateDecode =>
      match inflate data with
      | some d => decodeLoop inflate fs d
      | none => none
    | .dctDecode => some data
    | .ccittFaxDecode => none
    | .jbig2Decode => none
    | .jpxDecode => none
    | .other => decodeLoop inflate fs data

/-- `decode_pdf_image` (source lines 47-91).  `filters = none` models
`obj.get('/Filter') is None`, in which case the raw payload is returned;
the Python case of a single non-list filter is the singleton list here. -/
def decode_pdf_image (inflate : Bytes → Option Bytes)
    (filters : Option (List Filter)) (data : Bytes) : Option Bytes :=
  match filters with
  | none => some data
  | some fs => decodeLoop inflate fs data

/-- `compress_image` (source lines 94-145).  `encode d q w h` is the
oracle for the whole PIL pipeline (open, RGB conversion, thumbnail
resize, JPEG encode); `none` models an exception anywhere inside the
`try`, which the `except` turns into returning the input unchanged.
The input may itself be `None` (line 107: `image_data is None`). -/
def compress_image (pilAvailable : Bool)
    (encode : Bytes → Nat → Nat → Nat → Option Bytes)
    (image_data : Option Bytes) (quality maxW maxH : Nat) : Option Bytes :=
  match image_data with
  | none => none
  | some d =>
    if pilAvailable then
      match encode d quality maxW maxH with
      | none => some d
      | some compressed =>
        if compressed.length < d.length then some compressed else some d
    else some d

/-- Compression levels; `other` models any string outside the three map
keys, for which `dict.get(level, default)` yields the defaults. -/
inductive Level where
  | low
  | medium
  | high
  | other
deriving DecidableEq, Repr

/-- `quality_map` with its `.get(…, 50)` default (source lines 157-169). -/
def quality_map : Level → Nat
  | .low => 70
  | .medium => 50
  | .high => 20
  | .other => 50

/-- `size_map` with its `.get(…, (800, 600))` default (source lines 163-170). -/
def size_map : Level → Nat × Nat
  | .low => (1200, 900)
  | .medium => (800, 600)
  | .high => (400, 300)
  | .other => (800, 600)

/-- Colour spaces as far as the program writes them (line 210 sets
`/ColorSpace` to `/DeviceRGB`). -/
inductive ColorSpace where
  | deviceRGB
  | otherCS (code : Nat)
deriving DecidableEq, Repr

/-- One XObject entry of a page's resource dictionary, together with the
failure oracle for the per-image `try` (source lines 185-221).
`failFlag = true` means some statement inside that `try` raises after the
`images_processed += 1` increment (e.g. `del` or an attribute write); the
`except` then skips the image.  Mutations a partial update may have made
before such an exception are not modelled: no claim depends on them. -/
structure ImageObj where
  isImage : Bool
  filters : Option (List Filter)
  data : Bytes
  declaredLength : Nat
  colorSpace : ColorSpace
  decodeParms : Option Nat
  sMask : Option Nat
  mask : Option Nat
  failFlag : Bool
deriving DecidableEq, Repr

/-- A page, with the failure oracle of the per-page `try`
(source lines 180-224).  `hasXObjects` models
`'/Resources' in page and '/XObject' in page['/Resources']`;
`accessFail` an exception at the `xobjects` access itself (line 181);
`failAfter = some k` (with `k < imgs.length`) an exception thrown from
the iteration after `k` images have been handled (e.g. a malformed
object whose `/Subtype` lookup raises). -/
structure Page where
  id : Nat
  hasXObjects : Bool
  accessFail : Bool
  imgs : List ImageObj
  failAfter : Option Nat
deriving DecidableEq, Repr

/-- Environment passed to the rewriting pipeline: the two codec oracles
and the two flags the Python code reads from `PIL_AVAILABLE` and
`args.remove_images`. -/
structure Config where
  pilAvailable : Bool
  removeImages : Bool
  inflate : Bytes → Option Bytes
  encode : Bytes → Nat → Nat → Nat → Option Bytes

/-- Handling of one XObject in the inner loop of
`extract_and_compress_images` (source lines 182-221).  Returns the
entry's new state (`none` = deleted from the dictionary) and the
increments to `images_processed` and `images_compressed`. -/
def processImage (cfg : Config) (quality maxW maxH : Nat)
    (img : ImageObj) : Option ImageObj × Nat × Nat :=
  if img.isImage then
    if img.failFlag then (some img, 1, 0)
    else if cfg.removeImages then (none, 1, 0)
    else
      match decode_pdf_image cfg.inflate img.filters img.data with
      | none => (some img, 1, 0)
      | some image_data =>
        match compress_image cfg.pilAvailable cfg.encode (some image_data)
            quality maxW maxH with
        | none => (some img, 1, 0)
        | some compressed =>
          if compressed ≠ image_data ∧ cfg.pilAvailable then
            (some { img with
                data := compressed
                declaredLength := compressed.length
                filters := some [Filter.dctDecode]
                colorSpace := ColorSpace.deviceRGB
                decodeParms := none
                sMask := none
                mask := none }, 1, 1)
          else (some img, 1, 0)
  else (some img, 0, 0)

/-- The inner `for obj_name in list(xobjects.keys())` loop over one
page's XObjects, accumulating the surviving entries and the two
counters. -/
def processImages (cfg : Config) (quality maxW maxH : Nat) :
    List ImageObj → List ImageObj × Nat × Nat
  | [] => ([], 0, 0)
  | img :: rest =>
    let r := processImage cfg quality maxW maxH img
    let rs := processImages cfg quality maxW maxH rest
    ((match r.1 with | some i => [i] | none => []) ++ rs.1,
      r.2.1 + rs.2.1, r.2.2 + rs.2.2)

/-- Handling of one page in `extract_and_compress_images`
(source lines 175-226): first component is the page as appended to the
writer (`none`: the per-page `except` fired and its `continue` skips
`pdf_writer.add_page`, so the page is dropped), then the counter
increments. -/
def processPage (cfg : Config) (quality maxW maxH : Nat)
    (page : Page) : Option Page × Nat × Nat :=
  if page.hasXObjects then
    if page.accessFail then (none, 0, 0)
    else
      match page.failAfter with
      | some k =>
        if k < page.imgs.length then
          let r := processImages cfg quality maxW maxH (page.imgs.take k)
          (none, r.2.1, r.2.2)
        else
          let r := processImages cfg quality maxW maxH page.imgs
          (some { page with imgs := r.1 }, r.2.1, r.2.2)
      | none =>
        let r := processImages cfg quality maxW maxH page.imgs
        (some { page with imgs := r.1 }, r.2.1, r.2.2)
  else (some page, 0, 0)

/-- The page loop of `extract_and_compress_images` (source lines
148-229): produces the writer's page list and the final
`(images_processed, images_compressed)` counters. -/
def extractGo (cfg : Config) (quality maxW maxH : Nat) :
    List Page → List Page × Nat × Nat
  | [] => ([], 0, 0)
  | page :: rest =>
    let r := processPage cfg quality maxW maxH page
    let rs := extractGo cfg quality maxW maxH rest
    ((match r.1 with | some pg => [pg] | none => []) ++ rs.1,
      r.2.1 + rs.2.1, r.2.2 + rs.2.2)

/-- `extract_and_compress_images` (source lines 148-229), with the
quality / dimension lookup of lines 157-170. -/
def extract_and_compress_images (cfg : Config) (level : Level)
    (pages : List Page) : List Page × Nat × Nat :=
  extractGo cfg (quality_map level) (size_map level).1 (size_map level).2 pages

/-- Failure oracle for the `try` block of `compress_pdf`
(source lines 246-273): `openResult = none` models `open`/`PdfReader`
raising (lines 247-248); `pageLoopFail` an exception escaping the page
loop, metadata write or deduplication pass (lines 252-259, e.g.
`add_page` raising — `extract_and_compress_images` itself catches its
per-image and per-page exceptions); `writeOk = false` the output
serialization raising (lines 262-263).  The last two fields belong to
the chunking phase (line 267): `splitOpenFail` models the splitter's
own prologue — `open`/`PdfReader`/`len(pages)` at lines 287-292 —
raising before `temp_filename` is first bound at line 293, upon which
the splitter's `except` handler dereferences the still-unbound local at
line 372 and the resulting `UnboundLocalError` escapes into
`compress_pdf`'s handler; `splitLaterFail` models any splitter
exception after line 293, which that handler absorbs (`temp_filename`
is bound by then). -/
structure World where
  openResult : Option (List Page)
  pageLoopFail : Bool
  writeOk : Bool
  splitOpenFail : Bool
  splitLaterFail : Bool

/-- Body of `compress_pdf`'s `try` block as an `Except` computation; an
`error` models an uncaught exception reaching the `except` handler of
lines 271-273.  When `chunking` is set (line 266: `chunk_size` truthy),
`split_pdf_by_size` runs after the write; its internal `try/except`
absorbs every failure that occurs after `temp_filename` is bound at
line 293 (`splitLaterFail` — deliberately absent from the result), but
a failure in its prologue (lines 287-292) reaches a handler that reads
the still-unbound `temp_filename` (line 372), and the
`UnboundLocalError` raised there escapes into this block
(`splitOpenFail`). -/
def compressBody (cfg : Config) (level : Level) (w : World)
    (chunking : Bool) : Except String (List Page × Nat × Nat) :=
  match w.openResult with
  | none => Except.error "open"
  | some pages =>
    if w.pageLoopFail then Except.error "pages"
    else
      let out := extract_and_compress_images cfg level pages
      if w.writeOk then
        if chunking && w.splitOpenFail then
          Except.error "split handler UnboundLocalError"
        else Except.ok out
      else Except.error "write"

/-- `compress_pdf` (source lines 232-273): the `except` handler turns
every exception reaching it into the return value `False`; a run whose
`try` block completes returns `True`. -/
def compress_pdf (cfg : Config) (level : Level) (w : World)
    (chunking : Bool) : Bool :=
  match compressBody cfg level w chunking with
  | Except.ok _ => true
  | Except.error _ => false

/-- Loop state of `split_pdf_by_size` (source lines 291-294), plus the
history of chunk files written so far, each recorded as the ordered list
of zero-based page indices it contains (`chunksWritten[k]` is the file
`<stem>_part{k+1:02d}<ext>`). -/
structure SplitState where
  chunkNumber : Nat
  pagesInCurrentChunk : Nat
  chunksWritten : List (List Nat)
deriving DecidableEq, Repr

/-- One iteration of the page loop of `split_pdf_by_size` without the
final-page clause (source lines 296-339).  The tentative serialization
of lines 300-316 covers pages `page_number - pages_in_current_chunk + i`
for `i < pages_in_current_chunk` followed by `page_number` itself, i.e.
`List.range' (pn - pic) pic ++ [pn]`; `size` is the oracle measuring the
byte size PyPDF2 writes for that page list.  The reject branch
(lines 319-335) writes the accumulated chunk and restarts the chunk with
the current page; otherwise the page joins the chunk (line 339). -/
def splitCore (size : List Nat → Nat) (budget : Nat)
    (st : SplitState) (pn : Nat) : SplitState :=
  let testSize :=
    size (List.range' (pn - st.pagesInCurrentChunk) st.pagesInCurrentChunk ++ [pn])
  if budget < testSize ∧ 0 < st.pagesInCurrentChunk then
    { chunkNumber := st.chunkNumber + 1
      pagesInCurrentChunk := 1
      chunksWritten := st.chunksWritten ++
        [List.range' (pn - st.pagesInCurrentChunk) st.pagesInCurrentChunk] }
  else
    { st with pagesInCurrentChunk := st.pagesInCurrentChunk + 1 }

/-- The final-chunk clause (source lines 342-353): when the last page is
reached, write the accumulated chunk.  The source indexes its pages as
`page_number - pages_in_current_chunk + 1 + i` in Python integers; since
`pages_in_current_chunk ≤ page_number + 1` holds throughout, this equals
the truncation-safe `(pn + 1) - pic + i` used here. -/
def finalizeChunk (st : SplitState) (pn : Nat) : SplitState :=
  { st with chunksWritten := st.chunksWritten ++
      [List.range' (pn + 1 - st.pagesInCurrentChunk) st.pagesInCurrentChunk] }

/-- One full iteration of the page loop (source lines 296-353). -/
def splitStep (size : List Nat → Nat) (budget totalPages : Nat)
    (st : SplitState) (pn : Nat) : SplitState :=
  let st1 := splitCore size budget st pn
  if pn = totalPages - 1 then finalizeChunk st1 pn else st1

/-- The whole page loop of `split_pdf_by_size`, starting from
`chunk_number = 1`, an empty current chunk and no files written
(source lines 291-353). -/
def splitLoop (size : List Nat → Nat) (budget totalPages : Nat) : SplitState :=
  (List.range totalPages).foldl (splitStep size budget totalPages)
    { chunkNumber := 1, pagesInCurrentChunk := 0, chunksWritten := [] }

/-- `split_pdf_by_size` (source lines 276-367): the byte budget is
`size_mb * 1024 * 1024` (line 284). -/
def split_pdf_by_size (size : List Nat → Nat) (size_mb totalPages : Nat) :
    SplitState :=
  splitLoop size (size_mb * 1024 * 1024) totalPages

/-- Deletion of the original file after splitting happens iff
`chunk_number > 1` (source lines 362-365). -/
def originalDeleted (st : SplitState) : Bool :=
  decide (1 < st.chunkNumber)

/-- The `else` branch of line 366-367 prints that no splitting was
needed; it runs iff `chunk_number > 1` fails. -/
def reportsNoSplittingNeeded (st : SplitState) : Bool :=
  decide (¬ 1 < st.chunkNumber)

/-- Effect of the decode loop restricted to FlateDecode and unrecognized
filters: each FlateDecode stage is inverted through `inflate`,
unrecognized names are skipped, and a failing inflate yields `none`.
Characterizes the data `decode_pdf_image` has accumulated when it
reaches a terminating filter entry. -/
def chainInflate (inflate : Bytes → Option Bytes) :
    List Filter → Bytes → Option Bytes
  | [], d => some d
  | Filter.flateDecode :: fs, d =>
    match inflate d with
    | some d2 => chainInflate inflate fs d2
    | none => none
  | _ :: fs, d => chainInflate inflate fs d

/-- The three filters `decode_pdf_image` declines to decode
(source lines 78-86). -/
def unsupportedFilter : Filter → Bool
  | Filter.ccittFaxDecode => true
  | Filter.jbig2Decode => true
  | Filter.jpxDecode => true
  | _ => false

/-- The XObject entries of a page that the inner loop actually iterates
before the per-page `try` either completes or is aborted by an
exception. -/
def iteratedImgs (page : Page) : List ImageObj :=
  match page.failAfter with
  | some k => if k < page.imgs.length then page.imgs.take k else page.imgs
  | none => page.imgs

/-- Number of image resources (`/Subtype == /Image`) the page loop
encounters on a page: zero when the page has no XObject dictionary or
its access raises, otherwise the image-typed entries among the iterated
ones. -/
def encounteredImages (page : Page) : Nat :=
  if page.hasXObjects ∧ ¬ page.accessFail then
    ((iteratedImgs page).filter (fun i => i.isImage)).length
  else 0

/-- A concrete environment: PIL available, images kept, both codec
oracles failing (their results are irrelevant to the facts evaluated on
it). -/
def cfgDefault : Config :=
  { pilAvailable := true
    removeImages := false
    inflate := fun _ => none
    encode := fun _ _ _ _ => none }

/-- A concrete environment whose inflate succeeds (prepending a byte)
and whose encoder always yields a fixed two-byte JPEG. -/
def cfgLive : Config :=
  { pilAvailable := true
    removeImages := false
    inflate := fun d => some (0 :: d)
    encode := fun _ _ _ _ => some [7, 7] }

/-- A page whose resource-dictionary access raises (`accessFail`),
exercising the per-page `except` of source lines 222-224. -/
def badPage : Page :=
  { id := 0
    hasXObjects := true
    accessFail := true
    imgs := []
    failAfter := none }

/-- A concrete image carrying an unsupported (JPX) filter behind one
FlateDecode stage. -/
def jpxImage : ImageObj :=
  { isImage := true
    filters := some [Filter.flateDecode, Filter.jpxDecode]
    data := [1, 2]
    declaredLength := 2
    colorSpace := ColorSpace.otherCS 3
    decodeParms := some 5
    sMask := some 6
    mask := none
    failFlag := false }

theorem range'_snoc (s n : Nat) :
    List.range' s n ++ [s + n] = List.range' s (n + 1) := by
  have h : List.range' s (n + 1) 1 = List.range' s n 1 ++ [s + 1 * n] :=
    List.range'_concat s n
  simp only [one_mul] at h
  exact h.symm

theorem range_split (k m : Nat) (h : k ≤ m) :
    List.range k ++ List.range' k (m - k) = List.range m := by
  have h2 := List.range'_append 0 k (m - k) 1
  rw [List.range_eq_range', List.range_eq_range']
  simpa [Nat.sub_add_cancel h] using h2

theorem flatten_snoc_cover (m pic : Nat) (h : pic ≤ m) :
    List.range (m - pic) ++ List.range' (m - pic) pic = List.range m := by
  have h2 := range_split (m - pic) m (Nat.sub_le m pic)
  rwa [Nat.sub_sub_self h] at h2

theorem decodeLoop_chain (inflate : Bytes → Option Bytes) (fs1 : List Filter) :
    ∀ (fs2 : List Filter) (d d' : Bytes),
      (∀ f ∈ fs1, f = Filter.flateDecode ∨ f = Filter.other) →
      chainInflate inflate fs1 d = some d' →
      decodeLoop inflate (fs1 ++ fs2) d = decodeLoop inflate fs2 d' := by
  induction fs1 with
  | nil =>
    intro fs2 d d' _ h2
    simp only [chainInflate, Option.some.injEq] at h2
    subst h2
    rfl
  | cons f tl ih =>
    intro fs2 d d' h1 h2
    have hmem : ∀ g ∈ tl, g = Filter.flateDecode ∨ g = Filter.other :=
      fun g hg => h1 g (List.mem_cons_of_mem f hg)
    rcases h1 f (List.mem_cons_self f tl) with hf | hf <;> subst hf
    · simp only [chainInflate] at h2
      cases hi : inflate d with
      | none => rw [hi] at h2; exact absurd h2 (by simp)
      | some d2 =>
        rw [hi] at h2
        simp only [List.cons_append, decodeLoop, hi]
        exact ih fs2 d2 d' hmem h2
    · simp only [chainInflate] at h2
      simp only [List.cons_append, decodeLoop]
      exact ih fs2 d d' hmem h2

/-- C5: `compress_image` never expands: for any oracle outcome it either
returns the input bytes unchanged or a strictly smaller result, so the
result's length never exceeds the input's, and an absent input is
returned as-is; the function is total (every internal failure is a
`none` from the `encode` oracle, answered with the original input). -/
theorem c5_compress_image_never_expands (pilAvailable : Bool)
    (encode : Bytes → Nat → Nat → Nat → Option Bytes)
    (data : Bytes) (quality maxW maxH : Nat) :
    compress_image pilAvailable encode none quality maxW maxH = none ∧
    ∃ r, compress_image pilAvailable encode (some data) quality maxW maxH = some r ∧
      r.length ≤ data.length ∧ (r = data ∨ r.length < data.length) := by
  refine ⟨rfl, ?_⟩
  unfold compress_image
  cases pilAvailable with
  | false => exact ⟨data, by simp, le_refl _, Or.inl rfl⟩
  | true =>
    cases henc : encode data quality maxW maxH with
    | none => exact ⟨data, by simp [henc], le_refl _, Or.inl rfl⟩
    | some c =>
      by_cases hlt : c.length < data.length
      · exact ⟨c, by simp [henc, hlt], le_of_lt hlt, Or.inr hlt⟩
      · exact ⟨data, by simp [henc, hlt], le_refl _, Or.inl rfl⟩

/-- C6: a filter chain that reaches CCITTFaxDecode, JBIG2Decode or
JPXDecode (after FlateDecode stages that inflate successfully and
unrecognized names that are skipped) makes `decode_pdf_image` return the
`none` sentinel, and the page image rewriter then leaves the image
entirely untouched — payload, filters and all other attributes are
returned structurally identical, with no compressed-count increment. -/
theorem c6_unsupported_filter_untouched (cfg : Config) (quality maxW maxH : Nat)
    (img : ImageObj) (fs1 fs2 : List Filter) (u : Filter) (d' : Bytes)
    (himg : img.isImage = true) (hff : img.failFlag = false)
    (hrm : cfg.removeImages = false)
    (hfil : img.filters = some (fs1 ++ u :: fs2))
    (hu : unsupportedFilter u = true)
    (h1 : ∀ f ∈ fs1, f = Filter.flateDecode ∨ f = Filter.other)
    (h2 : chainInflate cfg.inflate fs1 img.data = some d') :
    decode_pdf_image cfg.inflate img.filters img.data = none ∧
    processImage cfg quality maxW maxH img = (some img, 1, 0) := by
  have hdec : decode_pdf_image cfg.inflate img.filters img.data = none := by
    rw [hfil]
    show decodeLoop cfg.inflate (fs1 ++ u :: fs2) img.data = none
    rw [decodeLoop_chain cfg.inflate fs1 (u :: fs2) img.data d' h1 h2]
    cases u <;> simp_all [unsupportedFilter, decodeLoop]
  refine ⟨hdec, ?_⟩
  unfold processImage
  simp [himg, hff, hrm, hdec]

/-- C6 witness: concrete image `[1, 2]` behind `FlateDecode` then
`JPXDecode`, with a succeeding inflate oracle. -/
theorem c6_witness :
    decode_pdf_image cfgLive.inflate jpxImage.filters jpxImage.data = none ∧
    processImage cfgLive 50 800 600 jpxImage = (some jpxImage, 1, 0) :=
  c6_unsupported_filter_untouched cfgLive 50 800 600 jpxImage
    [Filter.flateDecode] [] Filter.jpxDecode [0, 1, 2]
    rfl rfl rfl rfl rfl (by decide) rfl

/-- C7: on a chain whose entries before the first DCTDecode are
FlateDecode stages (all inflating successfully) or unrecognized names,
`decode_pdf_image` returns the payload with exactly those FlateDecode
stages inverted, and the result does not depend on the filters listed
after the DCTDecode entry (`fs2` is arbitrary and absent from the
conclusion). -/
theorem c7_dct_passthrough (inflate : Bytes → Option Bytes)
    (fs1 fs2 : List Filter) (data d' : Bytes)
    (h1 : ∀ f ∈ fs1, f = Filter.flateDecode ∨ f = Filter.other)
    (h2 : chainInflate inflate fs1 data = some d') :
    decode_pdf_image inflate (some (fs1 ++ Filter.dctDecode :: fs2)) data = some d' := by
  show decodeLoop inflate (fs1 ++ Filter.dctDecode :: fs2) data = some d'
  rw [decodeLoop_chain inflate fs1 (Filter.dctDecode :: fs2) data d' h1 h2]
  rfl

/-- C7 witness: one FlateDecode stage before DCTDecode, a junk filter
after it; the inverted payload `[0, 1]` comes back untouched by the
trailing filter. -/
theorem c7_witness :
    decode_pdf_image (fun d => some (0 :: d))
      (some ([Filter.flateDecode] ++ Filter.dctDecode :: [Filter.jpxDecode]))
      [1] = some [0, 1] :=
  c7_dct_passthrough (fun d => some (0 :: d))
    [Filter.flateDecode] [Filter.jpxDecode] [1] [0, 1] (by decide) rfl

theorem compress_pdf_success_characterization (cfg : Config) (level : Level)
    (w : World) (chunking : Bool) :
    compress_pdf cfg level w chunking = true ↔
      w.openResult ≠ none ∧ w.pageLoopFail = false ∧ w.writeOk = true ∧
      ¬(chunking = true ∧ w.splitOpenFail = true) := by
  unfold compress_pdf compressBody
  cases h : w.openResult with
  | none => simp [h]
  | some pages =>
    cases hp : w.pageLoopFail <;> cases hw : w.writeOk <;>
      cases hc : chunking <;> cases hs : w.splitOpenFail <;>
        simp [h, hp, hw, hc, hs]

/-- A world in which `compress_pdf`'s own open, page loop and output
write all complete, but the splitter's prologue raises before
`temp_filename` is bound, so the splitter's `except` handler itself
raises `UnboundLocalError`. -/
def worldSplitCrash : World :=
  { openResult := some []
    pageLoopFail := false
    writeOk := true
    splitOpenFail := true
    splitLaterFail := false }

/-- C8 (bug demonstration): with chunking enabled, a run that completes
serialization (open, page loop and output write all succeed) still
returns `False` when the splitter's prologue (lines 287-292) raises:
`temp_filename` is only bound at line 293, so the splitter's `except`
handler trips on the unbound local at line 372 and the
`UnboundLocalError` escapes into `compress_pdf`'s handler — the split
phase was meant to absorb its own failures (the handler's cleanup
comment and the `temp_filename = None` initialization show the intent),
but the initialization sits after the statements that can raise. -/
theorem c8_split_crash_flips_result :
    worldSplitCrash.openResult ≠ none ∧
    worldSplitCrash.pageLoopFail = false ∧
    worldSplitCrash.writeOk = true ∧
    compress_pdf cfgDefault Level.medium worldSplitCrash true = false :=
  ⟨by simp [worldSplitCrash], rfl, rfl, rfl⟩

/-- C9: on a zero-page document the splitter's loop body never runs: no
chunk is written, the original file is not deleted (`chunk_number`
stays 1), and the no-splitting-needed message is reported. -/
theorem c9_zero_pages_no_chunks (size : List Nat → Nat) (size_mb : Nat) :
    split_pdf_by_size size size_mb 0 =
      { chunkNumber := 1, pagesInCurrentChunk := 0, chunksWritten := [] } ∧
    originalDeleted (split_pdf_by_size size size_mb 0) = false ∧
    reportsNoSplittingNeeded (split_pdf_by_size size size_mb 0) = true :=
  ⟨rfl, rfl, rfl⟩

/-- C1 (bug demonstration): a one-page document whose resource
dictionary access raises is emitted with zero pages — the per-page
`except` of source lines 222-224 executes `continue`, which skips the
`pdf_writer.add_page(page)` of line 226, so the page is dropped from the
output instead of being appended unmodified. -/
theorem c1_resource_exception_drops_page :
    (extract_and_compress_images cfgDefault Level.medium [badPage]).1 = [] ∧
    [badPage].length = 1 :=
  ⟨rfl, rfl⟩

theorem processImage_counts (cfg : Config) (quality maxW maxH : Nat)
    (img : ImageObj) :
    (processImage cfg quality maxW maxH img).2.1 =
      (if img.isImage then 1 else 0) ∧
    (processImage cfg quality maxW maxH img).2.2 ≤
      (processImage cfg quality maxW maxH img).2.1 ∧
    (cfg.removeImages = true →
      (processImage cfg quality maxW maxH img).2.2 = 0) := by
  unfold processImage
  repeat' split
  all_goals simp_all

theorem processImages_counts (cfg : Config) (quality maxW maxH : Nat)
    (l : List ImageObj) :
    (processImages cfg quality maxW maxH l).2.1 =
      (l.filter (fun i => i.isImage)).length ∧
    (processImages cfg quality maxW maxH l).2.2 ≤
      (processImages cfg quality maxW maxH l).2.1 ∧
    (cfg.removeImages = true →
      (processImages cfg quality maxW maxH l).2.2 = 0) := by
  induction l with
  | nil => simp [processImages]
  | cons i tl ih =>
    have hi := processImage_counts cfg quality maxW maxH i
    simp only [processImages]
    refine ⟨?_, ?_, ?_⟩
    · rw [hi.1, ih.1]
      cases h : i.isImage with
      | false => simp [List.filter_cons, h]
      | true =>
        simp only [List.filter_cons, h, if_true, List.length_cons]
        omega
    · exact Nat.add_le_add hi.2.1 ih.2.1
    · intro hrm
      rw [hi.2.2 hrm, ih.2.2 hrm]

theorem processPage_counts (cfg : Config) (quality maxW maxH : Nat)
    (page : Page) :
    (processPage cfg quality maxW maxH page).2.1 = encounteredImages page ∧
    (processPage cfg quality maxW maxH page).2.2 ≤
      (processPage cfg quality maxW maxH page).2.1 ∧
    (cfg.removeImages = true →
      (processPage cfg quality maxW maxH page).2.2 = 0) := by
  unfold processPage encounteredImages iteratedImgs
  cases hx : page.hasXObjects with
  | false => simp
  | true =>
    cases ha : page.accessFail with
    | true => simp
    | false =>
      cases hfa : page.failAfter with
      | none =>
        have h := processImages_counts cfg quality maxW maxH page.imgs
        simpa using h
      | some k =>
        by_cases hk : k < page.imgs.length
        · have h := processImages_counts cfg quality maxW maxH (page.imgs.take k)
          simpa [hk] using h
        · have h := processImages_counts cfg quality maxW maxH page.imgs
          simpa [hk] using h

theorem extractGo_counts (cfg : Config) (quality maxW maxH : Nat)
    (pages : List Page) :
    (extractGo cfg quality maxW maxH pages).2.1 =
      (pages.map encounteredImages).sum ∧
    (extractGo cfg quality maxW maxH pages).2.2 ≤
      (extractGo cfg quality maxW maxH pages).2.1 ∧
    (cfg.removeImages = true →
      (extractGo cfg quality maxW maxH pages).2.2 = 0) := by
  induction pages with
  | nil => simp [extractGo]
  | cons pg tl ih =>
    have hp := processPage_counts cfg quality maxW maxH pg
    simp only [extractGo, List.map_cons, List.sum_cons]
    refine ⟨by rw [hp.1, ih.1], Nat.add_le_add hp.2.1 ih.2.1, ?_⟩
    intro hrm
    rw [hp.2.2 hrm, ih.2.2 hrm]

/-- C10: the rewriter's counters always satisfy
`images_compressed ≤ images_processed` (both are naturals, so `0 ≤` is
automatic), `images_processed` counts exactly the image resources the
loop encounters, and under the remove-images flag `images_compressed`
stays 0 while the encountered images are still counted.  Because the
statement holds for every page list (and every truncation expressible
through the failure oracles), it covers every intermediate state of the
loop, not just the final one. -/
theorem c10_counter_invariants (cfg : Config) (level : Level)
    (pages : List Page) :
    (extract_and_compress_images cfg level pages).2.2 ≤
      (extract_and_compress_images cfg level pages).2.1 ∧
    (extract_and_compress_images cfg level pages).2.1 =
      (pages.map encounteredImages).sum ∧
    (cfg.removeImages = true →
      (extract_and_compress_images cfg level pages).2.2 = 0) := by
  unfold extract_and_compress_images
  have h := extractGo_counts cfg (quality_map level)
    (size_map level).1 (size_map level).2 pages
  exact ⟨h.2.1, h.1, h.2.2⟩

/-- A remove-images environment for the C10 witness. -/
def cfgRemove : Config :=
  { pilAvailable := true
    removeImages := true
    inflate := fun _ => none
    encode := fun _ _ _ _ => none }

/-- A page holding one image resource, for the C10 witness. -/
def pgOneImage : Page :=
  { id := 1
    hasXObjects := true
    accessFail := false
    imgs := [jpxImage]
    failAfter := none }

/-- C10 witness: with the remove-images flag and one image on one page,
the counters come out `processed = 1`, `compressed = 0`. -/
theorem c10_witness :
    (extract_and_compress_images cfgRemove Level.high [pgOneImage]).2.2 ≤
      (extract_and_compress_images cfgRemove Level.high [pgOneImage]).2.1 ∧
    (extract_and_compress_images cfgRemove Level.high [pgOneImage]).2.1 =
      ([pgOneImage].map encounteredImages).sum ∧
    (extract_and_compress_images cfgRemove Level.high [pgOneImage]).2.2 = 0 :=
  ⟨(c10_counter_invariants cfgRemove Level.high [pgOneImage]).1,
   (c10_counter_invariants cfgRemove Level.high [pgOneImage]).2.1,
   (c10_counter_invariants cfgRemove Level.high [pgOneImage]).2.2 rfl⟩

/-- Loop invariant of the splitter after the first `m` pages have been
handled by `splitCore`: the current chunk holds the last
`pagesInCurrentChunk` of the first `m` pages, the files written so far
cover precisely the pages before it as contiguous non-empty ranges in
order, `chunk_number` is one ahead of the files written, a current chunk
of at least two pages has a measured size within budget (its last
acceptance tested exactly its page list), and every written chunk is a
single page or within budget. -/
def splitInv (size : List Nat → Nat) (budget m : Nat) (st : SplitState) : Prop :=
  st.pagesInCurrentChunk ≤ m ∧
  (0 < m → 0 < st.pagesInCurrentChunk) ∧
  st.chunksWritten.flatten = List.range (m - st.pagesInCurrentChunk) ∧
  (∀ c ∈ st.chunksWritten, ∃ a n, 0 < n ∧ c = List.range' a n) ∧
  st.chunkNumber = st.chunksWritten.length + 1 ∧
  (2 ≤ st.pagesInCurrentChunk →
    size (List.range' (m - st.pagesInCurrentChunk) st.pagesInCurrentChunk) ≤ budget) ∧
  (∀ c ∈ st.chunksWritten, c.length = 1 ∨ size c ≤ budget)

theorem splitInv_core (size : List Nat → Nat) (budget m : Nat) (st : SplitState)
    (h : splitInv size budget m st) :
    splitInv size budget (m + 1) (splitCore size budget st m) := by
  obtain ⟨h1, h2, h3, h4, h5, h6, h7⟩ := h
  unfold splitCore
  by_cases hc : budget <
      size (List.range' (m - st.pagesInCurrentChunk) st.pagesInCurrentChunk ++ [m]) ∧
      0 < st.pagesInCurrentChunk
  · rw [if_pos hc]
    refine ⟨?_, fun _ => Nat.one_pos, ?_, ?_, ?_, ?_, ?_⟩
    · show (1 : Nat) ≤ m + 1
      omega
    · show (st.chunksWritten ++
          [List.range' (m - st.pagesInCurrentChunk) st.pagesInCurrentChunk]).flatten =
        List.range (m + 1 - 1)
      simp only [List.flatten_append, List.flatten_cons, List.flatten_nil,
        List.append_nil, h3]
      rw [Nat.add_sub_cancel]
      exact flatten_snoc_cover m st.pagesInCurrentChunk h1
    · intro c hcmem
      rcases List.mem_append.mp hcmem with hcm | hcm
      · exact h4 c hcm
      · have hce : c = List.range' (m - st.pagesInCurrentChunk)
            st.pagesInCurrentChunk := by simpa using hcm
        exact ⟨m - st.pagesInCurrentChunk, st.pagesInCurrentChunk, hc.2, hce⟩
    · show st.chunkNumber + 1 = (st.chunksWritten ++
        [List.range' (m - st.pagesInCurrentChunk) st.pagesInCurrentChunk]).length + 1
      simp [h5]
    · intro hx
      have hx1 : (2 : Nat) ≤ 1 := hx
      omega
    · intro c hcmem
      rcases List.mem_append.mp hcmem with hcm | hcm
      · exact h7 c hcm
      · have hce : c = List.range' (m - st.pagesInCurrentChunk)
            st.pagesInCurrentChunk := by simpa using hcm
        subst hce
        rcases Nat.lt_or_ge st.pagesInCurrentChunk 2 with hp | hp
        · left
          have hone : st.pagesInCurrentChunk = 1 := by omega
          simp [hone]
        · right
          exact h6 hp
  · rw [if_neg hc]
    have hstep : (m + 1) - (st.pagesInCurrentChunk + 1) =
        m - st.pagesInCurrentChunk := by omega
    refine ⟨?_, fun _ => Nat.succ_pos _, ?_, h4, h5, ?_, h7⟩
    · show st.pagesInCurrentChunk + 1 ≤ m + 1
      omega
    · show st.chunksWritten.flatten =
        List.range (m + 1 - (st.pagesInCurrentChunk + 1))
      rw [hstep]
      exact h3
    · intro hp2
      have hp2' : 2 ≤ st.pagesInCurrentChunk + 1 := hp2
      have hpic : 0 < st.pagesInCurrentChunk := by omega
      have hle : size (List.range' (m - st.pagesInCurrentChunk)
          st.pagesInCurrentChunk ++ [m]) ≤ budget := by
        rcases Nat.lt_or_ge budget
            (size (List.range' (m - st.pagesInCurrentChunk)
              st.pagesInCurrentChunk ++ [m])) with hlt | hge
        · exact absurd ⟨hlt, hpic⟩ hc
        · exact hge
      have hm : (m - st.pagesInCurrentChunk) + st.pagesInCurrentChunk = m :=
        Nat.sub_add_cancel h1
      have hpages := range'_snoc (m - st.pagesInCurrentChunk) st.pagesInCurrentChunk
      rw [hm] at hpages
      rw [hpages] at hle
      show size (List.range' (m + 1 - (st.pagesInCurrentChunk + 1))
        (st.pagesInCurrentChunk + 1)) ≤ budget
      rw [hstep]
      exact hle

/-- The fold of `splitCore` over the first `m` pages (the loop with the
final-chunk clause stripped; for pages before the last one `splitStep`
coincides with it). -/
def coreFold (size : List Nat → Nat) (budget m : Nat) : SplitState :=
  (List.range m).foldl (splitCore size budget)
    { chunkNumber := 1, pagesInCurrentChunk := 0, chunksWritten := [] }

theorem coreFold_succ (size : List Nat → Nat) (budget m : Nat) :
    coreFold size budget (m + 1) =
      splitCore size budget (coreFold size budget m) m := by
  unfold coreFold
  rw [List.range_succ, List.foldl_append]
  rfl

theorem splitInv_coreFold (size : List Nat → Nat) (budget m : Nat) :
    splitInv size budget m (coreFold size budget m) := by
  induction m with
  | zero =>
    refine ⟨Nat.le_refl 0, by omega, rfl, by simp [coreFold], rfl, ?_,
      by simp [coreFold]⟩
    intro hx
    have hx0 : (2 : Nat) ≤ 0 := hx
    omega
  | succ k ih =>
    rw [coreFold_succ]
    exact splitInv_core size budget k (coreFold size budget k) ih

theorem foldl_splitStep_of_ne (size : List Nat → Nat) (budget total : Nat)
    (l : List Nat) :
    ∀ st : SplitState, (∀ x ∈ l, x ≠ total - 1) →
      l.foldl (splitStep size budget total) st =
        l.foldl (splitCore size budget) st := by
  induction l with
  | nil => intro st _; rfl
  | cons x tl ih =>
    intro st hl
    have hx : splitStep size budget total st x = splitCore size budget st x := by
      unfold splitStep
      simp [hl x (List.mem_cons_self x tl)]
    simp only [List.foldl_cons, hx]
    exact ih (splitCore size budget st x)
      (fun y hy => hl y (List.mem_cons_of_mem x hy))

theorem splitLoop_eq_finalize (size : List Nat → Nat) (budget total : Nat)
    (h : 0 < total) :
    splitLoop size budget total =
      finalizeChunk (coreFold size budget total) (total - 1) := by
  unfold splitLoop
  obtain ⟨t, rfl⟩ : ∃ t, total = t + 1 := ⟨total - 1, by omega⟩
  rw [List.range_succ, List.foldl_append]
  rw [foldl_splitStep_of_ne size budget (t + 1) (List.range t) _
    (fun x hx => by have := List.mem_range.mp hx; omega)]
  simp only [List.foldl_cons, List.foldl_nil]
  unfold splitStep
  rw [if_pos (by omega : t = (t + 1) - 1)]
  have hfold : List.foldl (splitCore size budget)
      { chunkNumber := 1, pagesInCurrentChunk := 0, chunksWritten := [] }
      (List.range t) = coreFold size budget t := rfl
  rw [hfold, ← coreFold_succ]
  have ht : (t + 1) - 1 = t := by omega
  rw [ht]

/-- C2: every chunk `split_pdf_by_size` writes is a contiguous non-empty
range of page indices, and concatenating the chunks in chunk-number
order yields exactly the original page sequence `0, …, total-1`, each
page once. -/
theorem c2_split_chunks_partition (size : List Nat → Nat)
    (size_mb total : Nat) :
    ((split_pdf_by_size size size_mb total).chunksWritten).flatten =
      List.range total ∧
    ∀ c ∈ (split_pdf_by_size size size_mb total).chunksWritten,
      ∃ a n, 0 < n ∧ c = List.range' a n := by
  unfold split_pdf_by_size
  rcases Nat.eq_zero_or_pos total with rfl | h
  · exact ⟨rfl, by simp [splitLoop]⟩
  · rw [splitLoop_eq_finalize size (size_mb * 1024 * 1024) total h]
    obtain ⟨h1, h2, h3, h4, h5, h6, h7⟩ :=
      splitInv_coreFold size (size_mb * 1024 * 1024) total
    have hpn : (total - 1) + 1 = total := by omega
    constructor
    · show ((coreFold size (size_mb * 1024 * 1024) total).chunksWritten ++
        [List.range' ((total - 1) + 1 -
            (coreFold size (size_mb * 1024 * 1024) total).pagesInCurrentChunk)
          (coreFold size (size_mb * 1024 * 1024) total).pagesInCurrentChunk]).flatten =
        List.range total
      simp only [List.flatten_append, List.flatten_cons, List.flatten_nil,
        List.append_nil, h3, hpn]
      exact flatten_snoc_cover total
        (coreFold size (size_mb * 1024 * 1024) total).pagesInCurrentChunk h1
    · intro c hcmem
      have hcm2 : c ∈ (coreFold size (size_mb * 1024 * 1024) total).chunksWritten ∨
          c = List.range'
            (total - (coreFold size (size_mb * 1024 * 1024) total).pagesInCurrentChunk)
            (coreFold size (size_mb * 1024 * 1024) total).pagesInCurrentChunk := by
        simpa [finalizeChunk, hpn] using hcmem
      rcases hcm2 with hcm | hcm
      · exact h4 c hcm
      · exact ⟨_, _, h2 h, hcm⟩

/-- C2 witness: with a size oracle that always fits, two pages land in a
single chunk `[0, 1]`, which is the contiguous range starting at 0. -/
theorem c2_witness :
    ((split_pdf_by_size (fun _ => 0) 1 2).chunksWritten).flatten =
      List.range 2 ∧
    ∃ a n, 0 < n ∧ [0, 1] = List.range' a n :=
  ⟨(c2_split_chunks_partition (fun _ => 0) 1 2).1,
   (c2_split_chunks_partition (fun _ => 0) 1 2).2 [0, 1] (by decide)⟩

/-- C3: every chunk the splitter writes is non-empty, and its measured
serialized size is within the byte budget `size_mb * 1024 * 1024` unless
the chunk consists of exactly one page (the only case the reject
branch's non-empty guard lets through oversized). -/
theorem c3_split_chunk_size_bound (size : List Nat → Nat)
    (size_mb total : Nat) :
    ∀ c ∈ (split_pdf_by_size size size_mb total).chunksWritten,
      c ≠ [] ∧ (c.length = 1 ∨ size c ≤ size_mb * 1024 * 1024) := by
  unfold split_pdf_by_size
  rcases Nat.eq_zero_or_pos total with rfl | h
  · intro c hcmem
    simp [splitLoop] at hcmem
  · rw [splitLoop_eq_finalize size (size_mb * 1024 * 1024) total h]
    obtain ⟨h1, h2, h3, h4, h5, h6, h7⟩ :=
      splitInv_coreFold size (size_mb * 1024 * 1024) total
    have hpn : (total - 1) + 1 = total := by omega
    intro c hcmem
    have hcm2 : c ∈ (coreFold size (size_mb * 1024 * 1024) total).chunksWritten ∨
        c = List.range'
          (total - (coreFold size (size_mb * 1024 * 1024) total).pagesInCurrentChunk)
          (coreFold size (size_mb * 1024 * 1024) total).pagesInCurrentChunk := by
      simpa [finalizeChunk, hpn] using hcmem
    rcases hcm2 with hcm | hcm
    · refine ⟨?_, h7 c hcm⟩
      obtain ⟨a, n, hn, rfl⟩ := h4 c hcm
      have hlen : (List.range' a n).length = n := by simp
      intro hnil
      rw [hnil] at hlen
      simp at hlen
      omega
    · have hpic : 0 <
          (coreFold size (size_mb * 1024 * 1024) total).pagesInCurrentChunk :=
        h2 h
      constructor
      · subst hcm
        have hlen : (List.range'
            (total - (coreFold size (size_mb * 1024 * 1024) total).pagesInCurrentChunk)
            (coreFold size (size_mb * 1024 * 1024) total).pagesInCurrentChunk).length =
            (coreFold size (size_mb * 1024 * 1024) total).pagesInCurrentChunk := by
          simp
        intro hnil
        rw [hnil] at hlen
        simp at hlen
        omega
      · rcases Nat.lt_or_ge
            (coreFold size (size_mb * 1024 * 1024) total).pagesInCurrentChunk 2
          with hp | hp
        · left
          subst hcm
          have hone :
              (coreFold size (size_mb * 1024 * 1024) total).pagesInCurrentChunk = 1 := by
            omega
          simp [hone]
        · right
          subst hcm
          exact h6 hp

theorem c3_witness :
    [0] ≠ ([] : List Nat) ∧
    (([0] : List Nat).length = 1 ∨
      (fun l => List.length l) [0] ≤ 1 * 1024 * 1024) :=
  c3_split_chunk_size_bound (fun l => List.length l) 1 1 [0] (by decide)

theorem coreFold_all_fits (size : List Nat → Nat) (budget total : Nat)
    (hall : ∀ m, m ≤ total → size (List.range m) ≤ budget) :
    ∀ m, m ≤ total → coreFold size budget m =
      { chunkNumber := 1, pagesInCurrentChunk := m, chunksWritten := [] } := by
  intro m
  induction m with
  | zero => intro _; rfl
  | succ k ih =>
    intro hk
    rw [coreFold_succ, ih (by omega)]
    unfold splitCore
    have hpages : List.range' (k - k) k ++ [k] = List.range (k + 1) := by
      rw [Nat.sub_self, List.range_eq_range']
      have hsnoc := range'_snoc 0 k
      simpa using hsnoc
    have hcond : ¬ (budget <
        size (List.range' (k - k) k ++ [k]) ∧ (0 : Nat) < k) := by
      intro hcontra
      rw [hpages] at hcontra
      exact absurd (hall (k + 1) hk) (Nat.not_le.mpr hcontra.1)
    rw [if_neg hcond]

/-- C4 (counterexample): a one-page document that fits the budget (one
byte against a 1 MB budget) still gets a numbered chunk file: the
final-chunk clause always writes `_part01`, so "creates no numbered
chunk files" fails even though `chunk_number` stays 1 and the original
is kept. -/
theorem c4_single_chunk_counterexample :
    (split_pdf_by_size (fun l => List.length l) 1 1).chunkNumber = 1 ∧
    List.length (List.range 1) ≤ 1 * 1024 * 1024 ∧
    (split_pdf_by_size (fun l => List.length l) 1 1).chunksWritten = [[0]] := by
  refine ⟨rfl, by decide, rfl⟩

/-- C4 (amended): for a non-empty document whose total measured size
fits the budget — with serialization size monotone over page-sequence
prefixes, the natural property of the external writer — the splitter
produces exactly one chunk holding all pages, `chunk_number` stays 1, so
the original file is not deleted and "no splitting needed" is reported;
but that single chunk is still written out as the numbered file
`_part01`. -/
theorem c4_single_chunk_amended (size : List Nat → Nat)
    (size_mb total : Nat) (htot : 0 < total)
    (hmono : ∀ m, m ≤ total → size (List.range m) ≤ size (List.range total))
    (hfits : size (List.range total) ≤ size_mb * 1024 * 1024) :
    (split_pdf_by_size size size_mb total).chunkNumber = 1 ∧
    (split_pdf_by_size size size_mb total).chunksWritten = [List.range total] ∧
    originalDeleted (split_pdf_by_size size size_mb total) = false ∧
    reportsNoSplittingNeeded (split_pdf_by_size size size_mb total) = true := by
  unfold split_pdf_by_size
  rw [splitLoop_eq_finalize size (size_mb * 1024 * 1024) total htot]
  have hall : ∀ m, m ≤ total → size (List.range m) ≤ size_mb * 1024 * 1024 :=
    fun m hm => le_trans (hmono m hm) hfits
  rw [coreFold_all_fits size (size_mb * 1024 * 1024) total hall total
    (Nat.le_refl total)]
  unfold finalizeChunk originalDeleted reportsNoSplittingNeeded
  have hchunk : List.range' ((total - 1) + 1 - total) total = List.range total := by
    have hpn : (total - 1) + 1 = total := by omega
    rw [hpn, Nat.sub_self, List.range_eq_range']
  exact ⟨rfl, by simp [hchunk], rfl, rfl⟩

/-- C4 witness for the amended claim: two one-byte-per-page pages under
a 1 MB budget give one chunk `[0, 1]`, no deletion, and the
no-splitting-needed report. -/
theorem c4_witness :
    (split_pdf_by_size (fun l => List.length l) 1 2).chunkNumber = 1 ∧
    (split_pdf_by_size (fun l => List.length l) 1 2).chunksWritten =
      [List.range 2] ∧
    originalDeleted (split_pdf_by_size (fun l => List.length l) 1 2) = false ∧
    reportsNoSplittingNeeded (split_pdf_by_size (fun l => List.length l) 1 2) =
      true :=
  c4_single_chunk_amended (fun l => List.length l) 1 2 (by decide)
    (fun m hm => by simpa using hm) (by simp)

end OnePdfShrink
